import Mathlib

/-!
Verification of the statistics/preprocessing notebook
`exploration_david/Exploration.ipynb` of the Sketch2img repository.

The notebook computes per-channel normalisation statistics (mean, standard
deviation, scaling factor) for two image datasets, filters sketch metadata by
quality flags, inverts sketch colours, builds a label/id map, and persists six
named statistics.  We embed the relevant pieces shallowly: images are
channel-major nested lists of exact rational pixel values, PyTorch's
`DataLoader(dataset, batch_size)` is list chunking, and the accumulation loops
become folds over the chunk list.
-/

namespace Sketch2img

/-- An image tensor of shape C×H×W: channel-major nested lists of exact
rational pixel values (`ℚ` stands in for the notebook's floating point, so the
claimed identities are in exact arithmetic). -/
abbrev Image : Type := List (List (List ℚ))

/-- A dataset, as iterated by `DataLoader`: the list of its items in order. -/
abbrev ImageDataset : Type := List Image

/-- The flattened pixel list of channel `c` of an image: the notebook's
`batch.view(batch_samples, C, -1)` flattens the H×W grid of each channel. -/
def Image.channelPixels (img : Image) (c : Nat) : List ℚ :=
  (img.getD c []).flatten

/-- All pixel values of an image, across all channels (the flattening done by
`torch.max(batch)` / `torch.min(batch)`, which reduce over every element). -/
def Image.allPixels (img : Image) : List ℚ :=
  img.flatten.flatten

/-- `img` is a C×H×W tensor: C channels, each an H×W grid. -/
@[reducible] def Image.HasDims (img : Image) (C H W : Nat) : Prop :=
  img.length = C ∧ ∀ ch ∈ img, ch.length = H ∧ ∀ row ∈ ch, row.length = W

/-- `DataLoader(dataset, batch_size)`: splits the dataset into consecutive
batches of `b` items; the last batch may be smaller.  (PyTorch requires a
positive batch size; for `b = 0` we return no batches.) -/
def chunks (b : Nat) : ImageDataset → List ImageDataset
  | [] => []
  | x :: xs =>
    if h : b = 0 then []
    else (x :: xs).take b :: chunks b ((x :: xs).drop b)
termination_by l => l.length
decreasing_by
  simp only [List.length_drop, List.length_cons]
  omega

/-- Arithmetic mean of a list (`tensor.mean` over the flattened dimension);
in `ℚ`, an empty list yields `0/0 = 0` (PyTorch would give NaN there, which
never arises for the well-formed datasets of the claims). -/
def listMean (l : List ℚ) : ℚ :=
  l.sum / l.length

/-- `dataset_mean(dataset, batch_size)` of the notebook, at channel `c`:
iterates the loader, accumulating `batch.mean(2).sum(0)` (the sum over the
batch of each item's per-channel pixel mean), then divides by the dataset
length. -/
def dataset_mean (dataset : ImageDataset) (batch_size : Nat) (c : Nat) : ℚ :=
  let dl := chunks batch_size dataset
  let mean : ℚ := dl.foldl
    (fun mean batch =>
      mean + (batch.map (fun img => listMean (img.channelPixels c))).sum) 0
  mean / dataset.length

/-- Height taken from the dataset's first item (`dataset[0][0].size()`):
number of rows of channel 0 of the first image. -/
def firstH (dataset : ImageDataset) : Nat :=
  dataset.headI.headI.length

/-- Width taken from the dataset's first item: length of row 0 of channel 0 of
the first image. -/
def firstW (dataset : ImageDataset) : Nat :=
  dataset.headI.headI.headI.length

/-- The radicand of `dataset_std(dataset, mean, batch_size)` at channel `c`:
the accumulated `((batch - mean.unsqueeze(1))**2).sum([0, 2])` divided by
`len(dataset) * h * w`, with `h`, `w` read from the dataset's first item. -/
def dataset_std_sq (dataset : ImageDataset) (mean : Nat → ℚ) (batch_size : Nat)
    (c : Nat) : ℚ :=
  let h := firstH dataset
  let w := firstW dataset
  let dl := chunks batch_size dataset
  let var : ℚ := dl.foldl
    (fun var batch =>
      var + (batch.map
        (fun img => ((img.channelPixels c).map (fun x => (x - mean c) ^ 2)).sum)).sum) 0
  var / (dataset.length * h * w)

/-- `dataset_std(dataset, mean, batch_size)` at channel `c`: the square root of
the accumulated normalised variance. -/
noncomputable def dataset_std (dataset : ImageDataset) (mean : Nat → ℚ)
    (batch_size : Nat) (c : Nat) : ℝ :=
  Real.sqrt (dataset_std_sq dataset mean batch_size c)

/-- Minimum of a list, as `torch.min` over a flattened batch (defined as `0` on
the empty list, where `torch.min` would raise instead). -/
def listMin : List ℚ → ℚ
  | [] => 0
  | x :: xs => xs.foldl min x

/-- Maximum of a list, as `torch.max` over a flattened batch (defined as `0` on
the empty list, where `torch.max` would raise instead). -/
def listMax : List ℚ → ℚ
  | [] => 0
  | x :: xs => xs.foldl max x

/-- `dataset_scaling(dataset, batch_size)`: scans all batches keeping the
running minimum (initialised to `1`) and maximum (initialised to `-1`) of all
pixel values, and returns `max(abs(min_value), abs(max_value))`. -/
def dataset_scaling (dataset : ImageDataset) (batch_size : Nat) : ℚ :=
  let dl := chunks batch_size dataset
  let mm : ℚ × ℚ := dl.foldl
    (fun mm batch =>
      let pixels := (batch.map Image.allPixels).flatten
      (min mm.1 (listMin pixels), max mm.2 (listMax pixels)))
    (1, -1)
  max |mm.1| |mm.2|

/-- All pixel values of the whole dataset, in order. -/
def datasetPixels (dataset : ImageDataset) : List ℚ :=
  (dataset.map Image.allPixels).flatten

/-- The reference computation of the mean claim: per channel `c`, the sum over
all images of all pixel values of channel `c`, divided by `N·H·W`. -/
def referenceMean (dataset : ImageDataset) (H W c : Nat) : ℚ :=
  (dataset.map (fun img => (img.channelPixels c).sum)).sum /
    (dataset.length * H * W)

/-- The reference computation of the std claim: per channel `c`, the sum over
all pixels `x` of channel `c` of `(x − mean_c)²`, divided by `N·H·W` with `H`,
`W` taken from the dataset's first item. -/
def referenceVar (dataset : ImageDataset) (mean : Nat → ℚ) (c : Nat) : ℚ :=
  (dataset.map
      (fun img => ((img.channelPixels c).map (fun x => (x - mean c) ^ 2)).sum)).sum /
    (dataset.length * firstH dataset * firstW dataset)

/-- `InvertTransform.__call__`: `1 - sample`, elementwise over the tensor. -/
def InvertTransform (sample : Image) : Image :=
  sample.map (fun ch => ch.map (fun row => row.map (fun v => 1 - v)))

/-- A row of `stats.csv`, with the columns the notebook reads: `Category`,
`ImageNetID`, `SketchID` (used by `__getitem__`) and the four quality columns
`Error?`, `Ambiguous?`, `WrongPose?`, `Context?` (used by `__init__`). -/
structure StatsRow where
  category : String
  imagenetID : String
  sketchID : Nat
  errorFlag : Int
  ambiguousFlag : Int
  wrongPoseFlag : Int
  contextFlag : Int
deriving DecidableEq, Repr

/-- The filtering done by `SketchesDataset.__init__` on the `stats.csv` rows:
each enabled removal flag keeps only the rows whose corresponding column
equals `0`, applied in sequence. -/
def filterStats (stats : List StatsRow)
    (remove_error remove_ambiguous remove_pose remove_context : Bool) :
    List StatsRow :=
  let s1 := if remove_error then stats.filter (fun r => r.errorFlag == 0) else stats
  let s2 := if remove_ambiguous then s1.filter (fun r => r.ambiguousFlag == 0) else s1
  let s3 := if remove_pose then s2.filter (fun r => r.wrongPoseFlag == 0) else s2
  let s4 := if remove_context then s3.filter (fun r => r.contextFlag == 0) else s3
  s4

/-- The info directory, as `SketchesDataset.__init__` reads it: the lines of
`invalid-error.txt` and the parsed rows of `stats.csv`; `none` models a
missing file (whose `open`/`read_csv` raises). -/
structure InfoDir where
  invalidErrorTxt : Option (List String)
  statsCsv : Option (List StatsRow)

/-- The state a constructed `SketchesDataset` holds: the invalid-file lines
and the retained metadata rows. -/
structure SketchesDataset where
  invalid : List String
  stats : List StatsRow
deriving DecidableEq, Repr

/-- `SketchesDataset.__init__`: opens `invalid-error.txt`, reads `stats.csv`,
then filters the rows by the four flags.  There is no handler, so a missing
file's error propagates unchanged (modelled as `Except.error` naming the
file). -/
def sketchesInit (info : InfoDir)
    (remove_error remove_ambiguous remove_pose remove_context : Bool) :
    Except String SketchesDataset :=
  match info.invalidErrorTxt with
  | none => .error "invalid-error.txt"
  | some invalid =>
    match info.statsCsv with
    | none => .error "stats.csv"
    | some stats =>
      .ok { invalid := invalid
            stats := filterStats stats remove_error remove_ambiguous
              remove_pose remove_context }

/-- `SketchesDataset.__init__` with Python's default arguments:
`remove_error=True`, `remove_ambiguous=False`, `remove_pose=False`,
`remove_context=False`. -/
def sketchesInitDefault (info : InfoDir) : Except String SketchesDataset :=
  sketchesInit info true false false false

/-- `SketchesDataset.__len__`: the number of retained rows. -/
def sketchesLen (ds : SketchesDataset) : Nat :=
  ds.stats.length

/-- A Python dict key of the label/id map: an integer id or a string label. -/
abbrev Key : Type := Sum Nat String

/-- The label/id dictionary: an association list where the most recent
assignment is listed first, so lookup finds the latest write (Python dict
update semantics). -/
abbrev LabelDict : Type := List (Key × Key)

/-- `d[k] = v`: a dict write, prepended so it shadows older bindings. -/
def dictInsert (d : LabelDict) (k v : Key) : LabelDict :=
  (k, v) :: d

/-- `d[k]`: a dict read, returning the most recent binding of `k` if any
(Python raises `KeyError` on `none`). -/
def dictGet (d : LabelDict) (k : Key) : Option Key :=
  (d.find? (fun kv => decide (kv.1 = k))).map Prod.snd

/-- One iteration of the `generate_labels_id_map` loop: `d[i] = label` then
`d[label] = i`. -/
def labelsStep (d : LabelDict) (il : Nat × String) : LabelDict :=
  dictInsert (dictInsert d (.inl il.1) (.inr il.2)) (.inr il.2) (.inl il.1)

/-- `generate_labels_id_map(photos_dir)`: iterates
`enumerate(sorted(os.listdir(photos_dir)))` writing `d[i] = label` and
`d[label] = i` (Python's `sorted` is modelled by `insertionSort` on the
string order; for the distinct listings of the claims the two agree). -/
def generate_labels_id_map (listing : List String) : LabelDict :=
  ((listing.insertionSort (· ≤ ·)).enum).foldl labelsStep []

/-- A value stored in the `np.savez` archive: a numeric array or a scalar. -/
inductive StatValue where
  | arr : List ℚ → StatValue
  | scalar : ℚ → StatValue
deriving DecidableEq

/-- The single `np.savez("dataset_stats", …)` call: the archive is exactly
these six named values, in keyword order. -/
def dataset_stats (photos_mean photos_std : List ℚ) (photos_scaling : ℚ)
    (sketches_mean sketches_std : List ℚ) (sketches_scaling : ℚ) :
    List (String × StatValue) :=
  [("photos_mean", .arr photos_mean),
   ("photos_std", .arr photos_std),
   ("photos_scaling", .scalar photos_scaling),
   ("sketches_mean", .arr sketches_mean),
   ("sketches_std", .arr sketches_std),
   ("sketches_scaling", .scalar sketches_scaling)]

/-- `SketchesDataset.__getitem__`: looks up row `idx`, builds the sketch path
from `Category` (spaces replaced by underscores), `ImageNetID` and `SketchID`,
opens the image file (a missing file's error propagates unchanged, modelled as
`Except.error` naming the path), applies the transform if one was given, and
returns the image with `labels_id_map[class_folder]`. -/
def sketchesGetitem (ds : SketchesDataset) (sketches_dir : String)
    (files : String → Option Image) (transform : Option (Image → Image))
    (labels_id_map : LabelDict) (idx : Nat) : Except String (Image × Key) :=
  match ds.stats[idx]? with
  | none => .error "IndexError"
  | some row =>
    let class_folder := row.category.replace " " "_"
    let sketch_file := row.imagenetID ++ "-" ++ toString row.sketchID ++ ".png"
    let sketch_path := sketches_dir ++ "/" ++ class_folder ++ "/" ++ sketch_file
    match files sketch_path with
    | none => .error sketch_path
    | some image =>
      let image := match transform with
        | some t => t image
        | none => image
      match dictGet labels_id_map (.inr class_folder) with
      | none => .error class_folder
      | some label => .ok (image, label)

/-- A small concrete dataset (three 1×1×2 images) used to instantiate the
theorems on concrete inputs. -/
def sampleDataset : ImageDataset :=
  [[[[1, -2]]], [[[3, 0]]], [[[5, 6]]]]

/-! ### Helper lemmas about the batching loop -/

theorem foldl_add_sum {α : Type} (f : α → ℚ) (l : List α) (a : ℚ) :
    l.foldl (fun s x => s + f x) a = a + (l.map f).sum := by
  induction l generalizing a with
  | nil => simp
  | cons x xs ih => simp [ih, add_assoc]

theorem chunks_flatten_aux (b : Nat) (hb : 0 < b) :
    ∀ (n : Nat) (l : ImageDataset), l.length ≤ n → (chunks b l).flatten = l := by
  intro n
  induction n with
  | zero =>
    intro l hl
    cases l with
    | nil => simp [chunks]
    | cons x xs => simp at hl
  | succ n ih =>
    intro l hl
    cases l with
    | nil => simp [chunks]
    | cons x xs =>
      have hb' : ¬ b = 0 := Nat.pos_iff_ne_zero.mp hb
      simp only [chunks, hb', dite_false, List.flatten_cons]
      rw [ih (List.drop b (x :: xs)) (by simp only [List.length_drop]; simp at hl ⊢; omega)]
      exact List.take_append_drop b (x :: xs)

/-- The loader enumerates the dataset exactly: flattening the batch list
gives back the dataset, element for element, in order. -/
theorem chunks_flatten (b : Nat) (hb : 0 < b) (l : ImageDataset) :
    (chunks b l).flatten = l :=
  chunks_flatten_aux b hb l.length l le_rfl

theorem chunks_mem_ne_nil_aux (b : Nat) (hb : 0 < b) :
    ∀ (n : Nat) (l : ImageDataset), l.length ≤ n →
      ∀ batch ∈ chunks b l, batch ≠ [] := by
  intro n
  induction n with
  | zero =>
    intro l hl
    cases l with
    | nil => simp [chunks]
    | cons x xs => simp at hl
  | succ n ih =>
    intro l hl
    cases l with
    | nil => simp [chunks]
    | cons x xs =>
      have hb' : ¬ b = 0 := Nat.pos_iff_ne_zero.mp hb
      simp only [chunks, hb', dite_false, List.mem_cons]
      rintro batch (rfl | hmem)
      · have : b ≠ 0 := hb'
        simp [List.take_eq_nil_iff, this]
      · exact ih (List.drop b (x :: xs))
          (by simp only [List.length_drop]; simp at hl ⊢; omega) batch hmem

/-- Every batch produced by the loader is non-empty. -/
theorem chunks_mem_ne_nil (b : Nat) (hb : 0 < b) (l : ImageDataset)
    (batch : ImageDataset) (hbatch : batch ∈ chunks b l) : batch ≠ [] :=
  chunks_mem_ne_nil_aux b hb l.length l le_rfl batch hbatch

/-- Every element of a batch comes from the dataset. -/
theorem chunks_mem_subset (b : Nat) (hb : 0 < b) (l : ImageDataset)
    (batch : ImageDataset) (hbatch : batch ∈ chunks b l)
    (x : Image) (hx : x ∈ batch) : x ∈ l := by
  rw [← chunks_flatten b hb l]
  exact List.mem_flatten.mpr ⟨batch, hbatch, hx⟩

theorem sum_over_chunks (b : Nat) (hb : 0 < b) (D : ImageDataset)
    (g : Image → ℚ) :
    ((chunks b D).map (fun batch => (batch.map g).sum)).sum = (D.map g).sum := by
  conv_rhs => rw [← chunks_flatten b hb D]
  rw [List.map_flatten, List.sum_flatten, List.map_map]
  rfl

/-- `dataset_mean` reduces to a single traversal of the dataset: the sum over
all items of the item's per-channel pixel mean, divided by the length. -/
theorem dataset_mean_eq (D : ImageDataset) (b c : Nat) (hb : 0 < b) :
    dataset_mean D b c
      = (D.map (fun img => listMean (img.channelPixels c))).sum / D.length := by
  simp only [dataset_mean, foldl_add_sum, zero_add,
    sum_over_chunks b hb D (fun img => listMean (img.channelPixels c))]

/-- `dataset_std_sq` reduces to a single traversal of the dataset. -/
theorem dataset_std_sq_eq (D : ImageDataset) (mean : Nat → ℚ) (b c : Nat)
    (hb : 0 < b) :
    dataset_std_sq D mean b c = referenceVar D mean c := by
  simp only [dataset_std_sq, referenceVar, foldl_add_sum, zero_add,
    sum_over_chunks b hb D
      (fun img => ((img.channelPixels c).map (fun x => (x - mean c) ^ 2)).sum)]

theorem channelPixels_length (img : Image) (C H W c : Nat)
    (hdims : img.HasDims C H W) (hc : c < C) :
    (img.channelPixels c).length = H * W := by
  obtain ⟨hC, hall⟩ := hdims
  have hcl : c < img.length := by rw [hC]; exact hc
  have hmem : img.getD c [] ∈ img := by
    rw [List.getD_eq_getElem img [] hcl]
    exact List.getElem_mem hcl
  obtain ⟨hH, hrows⟩ := hall _ hmem
  rw [Image.channelPixels, List.length_flatten]
  have : (img.getD c []).map List.length = List.replicate H W := by
    rw [← hH]
    apply List.map_eq_replicate_iff.mpr
    intro row hrow
    exact hrows row hrow
  rw [this, List.sum_replicate, smul_eq_mul]

/-- C1: for a non-empty dataset of identically sized C×H×W items and a
positive batch size, `dataset_mean` at channel `c` equals the per-channel
arithmetic mean of all pixel values of the whole dataset,
`(Σ over all images, all pixels of channel c) / (N·H·W)`. -/
theorem dataset_mean_correct (D : ImageDataset) (b C H W c : Nat)
    (hD : D ≠ []) (hb : 0 < b) (hdims : ∀ img ∈ D, img.HasDims C H W)
    (hc : c < C) :
    dataset_mean D b c = referenceMean D H W c := by
  rw [dataset_mean_eq D b c hb, referenceMean]
  have hmap : D.map (fun img => listMean (img.channelPixels c))
      = D.map (fun img => (img.channelPixels c).sum * ((H : ℚ) * W)⁻¹) := by
    apply List.map_congr_left
    intro img himg
    rw [listMean, channelPixels_length img C H W c (hdims img himg) hc]
    push_cast
    rw [div_eq_mul_inv]
  rw [hmap, List.sum_map_mul_right, ← div_eq_mul_inv, div_div]
  congr 1
  ring

/-- Witness for C1 on a concrete one-image dataset. -/
theorem dataset_mean_correct_witness :
    dataset_mean [[[[1, 2], [3, 4]]]] 1 0 = referenceMean [[[[1, 2], [3, 4]]]] 2 2 0 :=
  dataset_mean_correct [[[[1, 2], [3, 4]]]] 1 1 2 2 0 (by decide) (by decide)
    (by decide) (by decide)

/-- C2: for a non-empty dataset of identically sized C×H×W items, any
per-channel `mean` and a positive batch size, `dataset_std` at channel `c`
equals `sqrt((Σ over all pixels x of channel c of (x − mean_c)²) / (N·H·W))`,
with `H`, `W` taken from the dataset's first item — the reference population
standard deviation around the precomputed mean. -/
theorem dataset_std_correct (D : ImageDataset) (mean : Nat → ℚ)
    (b C H W c : Nat) (hD : D ≠ []) (hb : 0 < b)
    (hdims : ∀ img ∈ D, img.HasDims C H W) (hc : c < C) :
    dataset_std D mean b c = Real.sqrt (referenceVar D mean c) := by
  rw [dataset_std, dataset_std_sq_eq D mean b c hb]

/-- Witness for C2 on a concrete one-image dataset. -/
theorem dataset_std_correct_witness :
    dataset_std [[[[1, 2], [3, 4]]]] (fun _ => 2) 1 0
      = Real.sqrt (referenceVar [[[[1, 2], [3, 4]]]] (fun _ => 2) 0) :=
  dataset_std_correct [[[[1, 2], [3, 4]]]] (fun _ => 2) 1 1 2 2 0 (by decide)
    (by decide) (by decide) (by decide)

/-! ### Helper lemmas about folded minima and maxima -/

theorem foldl_min_init (a c : ℚ) (l : List ℚ) :
    l.foldl min (min a c) = min a (l.foldl min c) := by
  induction l generalizing c with
  | nil => rfl
  | cons y ys ih => simp only [List.foldl_cons, min_assoc, ih]

theorem foldl_max_init (a c : ℚ) (l : List ℚ) :
    l.foldl max (max a c) = max a (l.foldl max c) := by
  induction l generalizing c with
  | nil => rfl
  | cons y ys ih => simp only [List.foldl_cons, max_assoc, ih]

theorem foldl_min_eq_listMin (a : ℚ) (l : List ℚ) (hl : l ≠ []) :
    l.foldl min a = min a (listMin l) := by
  cases l with
  | nil => cases hl rfl
  | cons y ys => rw [listMin, List.foldl_cons, foldl_min_init]

theorem foldl_max_eq_listMax (a : ℚ) (l : List ℚ) (hl : l ≠ []) :
    l.foldl max a = max a (listMax l) := by
  cases l with
  | nil => cases hl rfl
  | cons y ys => rw [listMax, List.foldl_cons, foldl_max_init]

theorem listMin_append (l₁ l₂ : List ℚ) (h₁ : l₁ ≠ []) (h₂ : l₂ ≠ []) :
    listMin (l₁ ++ l₂) = min (listMin l₁) (listMin l₂) := by
  cases l₁ with
  | nil => cases h₁ rfl
  | cons x xs =>
    rw [List.cons_append, listMin, List.foldl_append,
      foldl_min_eq_listMin _ _ h₂, listMin]

theorem listMax_append (l₁ l₂ : List ℚ) (h₁ : l₁ ≠ []) (h₂ : l₂ ≠ []) :
    listMax (l₁ ++ l₂) = max (listMax l₁) (listMax l₂) := by
  cases l₁ with
  | nil => cases h₁ rfl
  | cons x xs =>
    rw [List.cons_append, listMax, List.foldl_append,
      foldl_max_eq_listMax _ _ h₂, listMax]

theorem foldl_min_le_init (l : List ℚ) (c : ℚ) : l.foldl min c ≤ c := by
  induction l generalizing c with
  | nil => exact le_refl c
  | cons y ys ih =>
    exact le_trans (ih (min c y)) (min_le_left c y)

theorem le_foldl_max_init (l : List ℚ) (c : ℚ) : c ≤ l.foldl max c := by
  induction l generalizing c with
  | nil => exact le_refl c
  | cons y ys ih =>
    exact le_trans (le_max_left c y) (ih (max c y))

theorem foldl_min_le_mem (l : List ℚ) (c x : ℚ) (hx : x ∈ l) :
    l.foldl min c ≤ x := by
  induction l generalizing c with
  | nil => cases hx
  | cons y ys ih =>
    rcases List.mem_cons.mp hx with rfl | hmem
    · exact le_trans (foldl_min_le_init ys (min c x)) (min_le_right c x)
    · exact ih (min c y) hmem

theorem le_foldl_max_mem (l : List ℚ) (c x : ℚ) (hx : x ∈ l) :
    x ≤ l.foldl max c := by
  induction l generalizing c with
  | nil => cases hx
  | cons y ys ih =>
    rcases List.mem_cons.mp hx with rfl | hmem
    · exact le_trans (le_max_right c x) (le_foldl_max_init ys (max c x))
    · exact ih (max c y) hmem

theorem listMin_le (l : List ℚ) (x : ℚ) (hx : x ∈ l) : listMin l ≤ x := by
  cases l with
  | nil => cases hx
  | cons y ys =>
    rw [listMin]
    rcases List.mem_cons.mp hx with rfl | hmem
    · exact foldl_min_le_init ys x
    · exact foldl_min_le_mem ys y x hmem

theorem le_listMax (l : List ℚ) (x : ℚ) (hx : x ∈ l) : x ≤ listMax l := by
  cases l with
  | nil => cases hx
  | cons y ys =>
    rw [listMax]
    rcases List.mem_cons.mp hx with rfl | hmem
    · exact le_foldl_max_init ys x
    · exact le_foldl_max_mem ys y x hmem

theorem listMin_le_listMax (l : List ℚ) (hl : l ≠ []) :
    listMin l ≤ listMax l := by
  cases l with
  | nil => cases hl rfl
  | cons y ys =>
    exact le_trans (listMin_le _ y (List.mem_cons_self y ys))
      (le_listMax _ y (List.mem_cons_self y ys))

theorem foldl_pair_min_max {α : Type} (L : List α) (g : α → List ℚ) (a b : ℚ) :
    L.foldl (fun mm p => (min mm.1 (listMin (g p)), max mm.2 (listMax (g p))))
        (a, b)
      = (L.foldl (fun x p => min x (listMin (g p))) a,
         L.foldl (fun x p => max x (listMax (g p))) b) := by
  induction L generalizing a b with
  | nil => rfl
  | cons p ps ih => simp only [List.foldl_cons]; exact ih _ _

theorem flatten_ne_nil {α : Type} (P : List (List α)) (p : List α)
    (hp : p ∈ P) (hne : p ≠ []) : P.flatten ≠ [] := by
  intro hflat
  exact hne (List.flatten_eq_nil_iff.mp hflat p hp)

theorem foldl_min_over_lists {α : Type} (L : List α) (g : α → List ℚ) (a : ℚ)
    (hL : L ≠ []) (hne : ∀ p ∈ L, g p ≠ []) :
    L.foldl (fun x p => min x (listMin (g p))) a
      = min a (listMin (L.map g).flatten) := by
  induction L generalizing a with
  | nil => cases hL rfl
  | cons p ps ih =>
    rw [List.foldl_cons, List.map_cons, List.flatten_cons]
    by_cases hps : ps = []
    · subst hps
      simp
    · have hpsflat : (ps.map g).flatten ≠ [] := by
        cases ps with
        | nil => cases hps rfl
        | cons q qs =>
          exact flatten_ne_nil _ (g q)
            (List.mem_map_of_mem g (List.mem_cons_self q qs))
            (hne q (List.mem_cons_of_mem p (List.mem_cons_self q qs)))
      rw [ih (min a (listMin (g p))) hps
          (fun q hq => hne q (List.mem_cons_of_mem p hq)),
        listMin_append (g p) (ps.map g).flatten
          (hne p (List.mem_cons_self p ps)) hpsflat,
        min_assoc]

theorem foldl_max_over_lists {α : Type} (L : List α) (g : α → List ℚ) (a : ℚ)
    (hL : L ≠ []) (hne : ∀ p ∈ L, g p ≠ []) :
    L.foldl (fun x p => max x (listMax (g p))) a
      = max a (listMax (L.map g).flatten) := by
  induction L generalizing a with
  | nil => cases hL rfl
  | cons p ps ih =>
    rw [List.foldl_cons, List.map_cons, List.flatten_cons]
    by_cases hps : ps = []
    · subst hps
      simp
    · have hpsflat : (ps.map g).flatten ≠ [] := by
        cases ps with
        | nil => cases hps rfl
        | cons q qs =>
          exact flatten_ne_nil _ (g q)
            (List.mem_map_of_mem g (List.mem_cons_self q qs))
            (hne q (List.mem_cons_of_mem p (List.mem_cons_self q qs)))
      rw [ih (max a (listMax (g p))) hps
          (fun q hq => hne q (List.mem_cons_of_mem p hq)),
        listMax_append (g p) (ps.map g).flatten
          (hne p (List.mem_cons_self p ps)) hpsflat,
        max_assoc]

theorem chunks_ne_nil (b : Nat) (hb : 0 < b) (l : ImageDataset) (hl : l ≠ []) :
    chunks b l ≠ [] := by
  cases l with
  | nil => cases hl rfl
  | cons x xs =>
    have hb' : ¬ b = 0 := Nat.pos_iff_ne_zero.mp hb
    simp [chunks, hb']

theorem batch_pixels_flatten (b : Nat) (hb : 0 < b) (D : ImageDataset) :
    ((chunks b D).map (fun batch => (batch.map Image.allPixels).flatten)).flatten
      = datasetPixels D := by
  conv_rhs => rw [datasetPixels, ← chunks_flatten b hb D]
  rw [List.map_flatten, List.flatten_flatten, List.map_map]
  rfl

/-- `dataset_scaling` reduces to a single scan of all pixel values: the
result is `max |min 1 m| |max (-1) M|`, where `m` and `M` are the minimum and
maximum over all pixels (the `1`/`-1` being the loop's initial values). -/
theorem dataset_scaling_eq (D : ImageDataset) (b : Nat) (hb : 0 < b)
    (hD : D ≠ []) (hpx : ∀ img ∈ D, img.allPixels ≠ []) :
    dataset_scaling D b
      = max |min 1 (listMin (datasetPixels D))|
            |max (-1) (listMax (datasetPixels D))| := by
  have hCne : chunks b D ≠ [] := chunks_ne_nil b hb D hD
  have hne : ∀ batch ∈ chunks b D,
      (batch.map Image.allPixels).flatten ≠ [] := by
    intro batch hbatch
    have hbne : batch ≠ [] := chunks_mem_ne_nil b hb D batch hbatch
    cases batch with
    | nil => cases hbne rfl
    | cons img rest =>
      exact flatten_ne_nil _ (Image.allPixels img)
        (List.mem_map_of_mem _ (List.mem_cons_self img rest))
        (hpx img (chunks_mem_subset b hb D _ hbatch img
          (List.mem_cons_self img rest)))
  simp only [dataset_scaling, foldl_pair_min_max,
    foldl_min_over_lists (chunks b D)
      (fun batch => (batch.map Image.allPixels).flatten) 1 hCne hne,
    foldl_max_over_lists (chunks b D)
      (fun batch => (batch.map Image.allPixels).flatten) (-1) hCne hne,
    batch_pixels_flatten b hb D]

/-- C3: for a non-empty dataset with at least one pixel per item and a
positive batch size, `dataset_scaling` returns
`s = max(|min over all pixels|, |max over all pixels|)`; every pixel `x`
satisfies `|x| ≤ s`, so dividing every pixel by `s` lands in `[-1, 1]`. -/
theorem dataset_scaling_correct (D : ImageDataset) (b : Nat) (hb : 0 < b)
    (hD : D ≠ []) (hpx : ∀ img ∈ D, img.allPixels ≠ []) :
    dataset_scaling D b
        = max |listMin (datasetPixels D)| |listMax (datasetPixels D)|
      ∧ (∀ x ∈ datasetPixels D, |x| ≤ dataset_scaling D b)
      ∧ (∀ x ∈ datasetPixels D, |x / dataset_scaling D b| ≤ 1) := by
  have hpix : datasetPixels D ≠ [] := by
    cases D with
    | nil => cases hD rfl
    | cons img rest =>
      exact flatten_ne_nil _ (Image.allPixels img)
        (List.mem_map_of_mem _ (List.mem_cons_self img rest))
        (hpx img (List.mem_cons_self img rest))
  have hmM : listMin (datasetPixels D) ≤ listMax (datasetPixels D) :=
    listMin_le_listMax _ hpix
  have hs := dataset_scaling_eq D b hb hD hpx
  have key : max |min 1 (listMin (datasetPixels D))|
        |max (-1) (listMax (datasetPixels D))|
      = max |listMin (datasetPixels D)| |listMax (datasetPixels D)| := by
    set m := listMin (datasetPixels D) with hm_def
    set M := listMax (datasetPixels D) with hM_def
    rcases le_or_lt m 1 with hm1 | hm1
    · rcases le_or_lt (-1 : ℚ) M with hM1 | hM1
      · rw [min_eq_right hm1, max_eq_right hM1]
      · have hMneg : M < 0 := lt_trans hM1 (by norm_num)
        have hmneg : m < 0 := lt_of_le_of_lt hmM hMneg
        rw [min_eq_right hm1, max_eq_left (le_of_lt hM1), abs_neg, abs_one,
          abs_of_neg hmneg, abs_of_neg hMneg,
          max_eq_left (by linarith : (1 : ℚ) ≤ -m),
          max_eq_left (by linarith : -M ≤ -m)]
    · have hMpos : (1 : ℚ) < M := lt_of_lt_of_le hm1 hmM
      have hM1 : (-1 : ℚ) ≤ M := by linarith
      rw [min_eq_left (le_of_lt hm1), max_eq_right hM1, abs_one,
        abs_of_pos (by linarith : (0 : ℚ) < m),
        abs_of_pos (by linarith : (0 : ℚ) < M),
        max_eq_right (by linarith : (1 : ℚ) ≤ M),
        max_eq_right (by linarith : m ≤ M)]
  have hval : dataset_scaling D b
      = max |listMin (datasetPixels D)| |listMax (datasetPixels D)| :=
    hs.trans key
  have habs : ∀ x ∈ datasetPixels D, |x| ≤ dataset_scaling D b := by
    intro x hx
    rw [hval]
    rcases le_or_lt 0 x with hx0 | hx0
    · calc |x| = x := abs_of_nonneg hx0
        _ ≤ listMax (datasetPixels D) := le_listMax _ x hx
        _ ≤ |listMax (datasetPixels D)| := le_abs_self _
        _ ≤ _ := le_max_right _ _
    · have hxm := listMin_le _ x hx
      calc |x| = -x := abs_of_neg hx0
        _ ≤ -listMin (datasetPixels D) := by linarith
        _ ≤ |listMin (datasetPixels D)| := neg_le_abs _
        _ ≤ _ := le_max_left _ _
  refine ⟨hval, habs, ?_⟩
  intro x hx
  have hxs := habs x hx
  have hs0 : 0 ≤ dataset_scaling D b := le_trans (abs_nonneg x) hxs
  rcases eq_or_lt_of_le hs0 with hseq | hslt
  · have hx0 : x = 0 := by
      have : |x| ≤ 0 := by rw [hseq]; exact hxs
      exact abs_eq_zero.mp (le_antisymm this (abs_nonneg x))
    rw [hx0, zero_div, abs_zero]
    norm_num
  · rw [abs_div, abs_of_pos hslt, div_le_one hslt]
    exact hxs

/-- Witness for C3 on a concrete two-image dataset. -/
theorem dataset_scaling_correct_witness :
    dataset_scaling [[[[1, -2]]], [[[3, 0]]]] 1
        = max |listMin (datasetPixels [[[[1, -2]]], [[[3, 0]]]])|
              |listMax (datasetPixels [[[[1, -2]]], [[[3, 0]]]])|
      ∧ (∀ x ∈ datasetPixels [[[[1, -2]]], [[[3, 0]]]],
          |x| ≤ dataset_scaling [[[[1, -2]]], [[[3, 0]]]] 1)
      ∧ (∀ x ∈ datasetPixels [[[[1, -2]]], [[[3, 0]]]],
          |x / dataset_scaling [[[[1, -2]]], [[[3, 0]]]] 1| ≤ 1) :=
  dataset_scaling_correct [[[[1, -2]]], [[[3, 0]]]] 1 (by decide) (by decide)
    (by decide)

/-- C6: each statistics function computes its result in one full pass over
the dataset: the loader's batch list flattens back to the dataset itself
(every element contributes to exactly one batch, exactly once, in order), and
each accumulated result equals the corresponding single traversal of the
dataset. -/
theorem single_pass_correct (D : ImageDataset) (mean : Nat → ℚ) (b c : Nat)
    (hb : 0 < b) (hD : D ≠ []) (hpx : ∀ img ∈ D, img.allPixels ≠ []) :
    (chunks b D).flatten = D
    ∧ dataset_mean D b c
        = (D.map (fun img => listMean (img.channelPixels c))).sum / D.length
    ∧ dataset_std_sq D mean b c = referenceVar D mean c
    ∧ dataset_scaling D b
        = max |min 1 (listMin (datasetPixels D))|
              |max (-1) (listMax (datasetPixels D))| :=
  ⟨chunks_flatten b hb D, dataset_mean_eq D b c hb,
   dataset_std_sq_eq D mean b c hb, dataset_scaling_eq D b hb hD hpx⟩

/-- Witness for C6 on a concrete three-image dataset with batch size 2. -/
theorem single_pass_correct_witness :
    (chunks 2 sampleDataset).flatten = sampleDataset
    ∧ dataset_mean sampleDataset 2 0
        = (sampleDataset.map (fun img => listMean (img.channelPixels 0))).sum /
            sampleDataset.length
    ∧ dataset_std_sq sampleDataset (fun _ => 0) 2 0
        = referenceVar sampleDataset (fun _ => 0) 0
    ∧ dataset_scaling sampleDataset 2
        = max |min 1 (listMin (datasetPixels sampleDataset))|
              |max (-1) (listMax (datasetPixels sampleDataset))| :=
  single_pass_correct sampleDataset (fun _ => 0) 2 0 (by decide) (by decide)
    (by decide)

/-- C8: in exact arithmetic the returned statistics do not depend on the
batch size: any two positive batch sizes give equal `dataset_mean`,
`dataset_std` and `dataset_scaling` results, so the batched accumulation is
equivalent to the unbatched (single-batch) computation. -/
theorem batch_size_independent (D : ImageDataset) (mean : Nat → ℚ)
    (b₁ b₂ c : Nat) (h₁ : 0 < b₁) (h₂ : 0 < b₂)
    (hpx : ∀ img ∈ D, img.allPixels ≠ []) :
    dataset_mean D b₁ c = dataset_mean D b₂ c
    ∧ dataset_std D mean b₁ c = dataset_std D mean b₂ c
    ∧ dataset_scaling D b₁ = dataset_scaling D b₂ := by
  refine ⟨?_, ?_, ?_⟩
  · rw [dataset_mean_eq D b₁ c h₁, dataset_mean_eq D b₂ c h₂]
  · rw [dataset_std, dataset_std, dataset_std_sq_eq D mean b₁ c h₁,
      dataset_std_sq_eq D mean b₂ c h₂]
  · by_cases hD : D = []
    · subst hD
      simp [dataset_scaling, chunks]
    · rw [dataset_scaling_eq D b₁ h₁ hD hpx, dataset_scaling_eq D b₂ h₂ hD hpx]

/-- Witness for C8: batch sizes 1 and 2 agree on a concrete dataset. -/
theorem batch_size_independent_witness :
    dataset_mean sampleDataset 1 0 = dataset_mean sampleDataset 2 0
    ∧ dataset_std sampleDataset (fun _ => 0) 1 0
        = dataset_std sampleDataset (fun _ => 0) 2 0
    ∧ dataset_scaling sampleDataset 1 = dataset_scaling sampleDataset 2 :=
  batch_size_independent sampleDataset (fun _ => 0) 1 2 0 (by decide) (by decide)
    (by decide)

/-- C9: `InvertTransform` is an involution, and it preserves the unit
interval: applying it twice is the identity, and if every entry of `x` lies
in `[0, 1]` then so does every entry of `1 - x`. -/
theorem invertTransform_involution (x : Image) :
    InvertTransform (InvertTransform x) = x
    ∧ ((∀ v ∈ x.allPixels, 0 ≤ v ∧ v ≤ 1) →
        ∀ v ∈ (InvertTransform x).allPixels, 0 ≤ v ∧ v ≤ 1) := by
  have hv : ∀ v : ℚ, 1 - (1 - v) = v := fun v => by ring
  constructor
  · simp [InvertTransform, List.map_map, Function.comp_def, hv]
  · intro hrange v hvmem
    have hpix : (InvertTransform x).allPixels
        = x.allPixels.map (fun v => 1 - v) := by
      simp [InvertTransform, Image.allPixels, List.map_flatten, List.map_map]
    rw [hpix] at hvmem
    obtain ⟨w, hw, rfl⟩ := List.mem_map.mp hvmem
    obtain ⟨hw0, hw1⟩ := hrange w hw
    constructor <;> linarith

/-- Witness for C9: the [0,1]-preservation hypothesis discharged on a
concrete tensor. -/
theorem invertTransform_involution_witness :
    InvertTransform (InvertTransform [[[0, 1]]]) = [[[0, 1]]]
    ∧ ∀ v ∈ (InvertTransform [[[0, 1]]] : Image).allPixels,
        0 ≤ v ∧ v ≤ 1 :=
  ⟨(invertTransform_involution [[[0, 1]]]).1,
   (invertTransform_involution [[[0, 1]]]).2 (by decide)⟩

/-- C4: a metadata row is retained iff, for each enabled removal flag, the
corresponding quality column equals 0; a disabled flag removes nothing; the
constructor stores exactly the filtered rows, and `__len__` returns their
number; the Python default flags are `remove_error=True` and the other three
`False`. -/
theorem sketches_filter_correct (stats : List StatsRow) (e a p c : Bool) :
    (∀ r, r ∈ filterStats stats e a p c ↔
        r ∈ stats ∧ (e = true → r.errorFlag = 0) ∧
          (a = true → r.ambiguousFlag = 0) ∧ (p = true → r.wrongPoseFlag = 0) ∧
          (c = true → r.contextFlag = 0))
    ∧ filterStats stats false false false false = stats
    ∧ (∀ inv, sketchesInit ⟨some inv, some stats⟩ e a p c
        = .ok ⟨inv, filterStats stats e a p c⟩)
    ∧ (∀ inv, sketchesLen ⟨inv, filterStats stats e a p c⟩
        = (filterStats stats e a p c).length)
    ∧ (∀ info, sketchesInitDefault info = sketchesInit info true false false false) := by
  refine ⟨?_, ?_, ?_, ?_, ?_⟩
  · intro r
    cases e <;> cases a <;> cases p <;> cases c <;>
      simp [filterStats, List.mem_filter, and_assoc] <;> tauto
  · rfl
  · intro inv
    rfl
  · intro inv
    rfl
  · intro info
    rfl

/-- C5: the persisted statistics artifact is a single serialization call
holding exactly six named numeric values — `photos_mean`, `photos_std`,
`photos_scaling`, `sketches_mean`, `sketches_std`, `sketches_scaling` — the
means and standard deviations per-channel arrays (one entry per channel `C`)
and the scaling factors scalars. -/
theorem dataset_stats_correct (pm ps sm ss : List ℚ) (psc ssc : ℚ) (C : Nat)
    (hpm : pm.length = C) (hps : ps.length = C) (hsm : sm.length = C)
    (hss : ss.length = C) :
    (dataset_stats pm ps psc sm ss ssc).map Prod.fst
        = ["photos_mean", "photos_std", "photos_scaling",
           "sketches_mean", "sketches_std", "sketches_scaling"]
    ∧ (dataset_stats pm ps psc sm ss ssc).length = 6
    ∧ List.lookup "photos_mean" (dataset_stats pm ps psc sm ss ssc)
        = some (.arr pm)
    ∧ List.lookup "photos_std" (dataset_stats pm ps psc sm ss ssc)
        = some (.arr ps)
    ∧ List.lookup "photos_scaling" (dataset_stats pm ps psc sm ss ssc)
        = some (.scalar psc)
    ∧ List.lookup "sketches_mean" (dataset_stats pm ps psc sm ss ssc)
        = some (.arr sm)
    ∧ List.lookup "sketches_std" (dataset_stats pm ps psc sm ss ssc)
        = some (.arr ss)
    ∧ List.lookup "sketches_scaling" (dataset_stats pm ps psc sm ss ssc)
        = some (.scalar ssc)
    ∧ (∀ name v, (name, v) ∈ dataset_stats pm ps psc sm ss ssc →
        (∃ l, v = .arr l ∧ l.length = C) ∨ (∃ q, v = .scalar q)) := by
  refine ⟨rfl, rfl, rfl, rfl, rfl, rfl, rfl, rfl, ?_⟩
  intro name v hmem
  simp only [dataset_stats, List.mem_cons, List.not_mem_nil, or_false,
    Prod.mk.injEq] at hmem
  rcases hmem with ⟨_, rfl⟩ | ⟨_, rfl⟩ | ⟨_, rfl⟩ | ⟨_, rfl⟩ | ⟨_, rfl⟩ | ⟨_, rfl⟩
  · exact Or.inl ⟨pm, rfl, hpm⟩
  · exact Or.inl ⟨ps, rfl, hps⟩
  · exact Or.inr ⟨psc, rfl⟩
  · exact Or.inl ⟨sm, rfl, hsm⟩
  · exact Or.inl ⟨ss, rfl, hss⟩
  · exact Or.inr ⟨ssc, rfl⟩

/-- Witness for C5 with one channel. -/
theorem dataset_stats_correct_witness :
    (dataset_stats [1] [2] 3 [4] [5] 6).map Prod.fst
        = ["photos_mean", "photos_std", "photos_scaling",
           "sketches_mean", "sketches_std", "sketches_scaling"]
    ∧ (dataset_stats [1] [2] 3 [4] [5] 6).length = 6
    ∧ List.lookup "photos_mean" (dataset_stats [1] [2] 3 [4] [5] 6)
        = some (.arr [1])
    ∧ List.lookup "photos_std" (dataset_stats [1] [2] 3 [4] [5] 6)
        = some (.arr [2])
    ∧ List.lookup "photos_scaling" (dataset_stats [1] [2] 3 [4] [5] 6)
        = some (.scalar 3)
    ∧ List.lookup "sketches_mean" (dataset_stats [1] [2] 3 [4] [5] 6)
        = some (.arr [4])
    ∧ List.lookup "sketches_std" (dataset_stats [1] [2] 3 [4] [5] 6)
        = some (.arr [5])
    ∧ List.lookup "sketches_scaling" (dataset_stats [1] [2] 3 [4] [5] 6)
        = some (.scalar 6)
    ∧ (∀ name v, (name, v) ∈ dataset_stats [1] [2] 3 [4] [5] 6 →
        (∃ l, v = .arr l ∧ l.length = 1) ∨ (∃ q, v = .scalar q)) :=
  dataset_stats_correct [1] [2] [4] [5] 3 6 1 rfl rfl rfl rfl

/-- C7: no operation implements error recovery: a missing required file makes
the operation return the underlying error unchanged — `invalid-error.txt` or
`stats.csv` in `__init__`, a sketch image file in `__getitem__`; there is no
catch, retry, or fallback path. -/
theorem error_propagation_correct :
    (∀ (e a p c : Bool) (info : InfoDir), info.invalidErrorTxt = none →
        sketchesInit info e a p c = .error "invalid-error.txt")
    ∧ (∀ (e a p c : Bool) (info : InfoDir) (inv : List String),
        info.invalidErrorTxt = some inv → info.statsCsv = none →
        sketchesInit info e a p c = .error "stats.csv")
    ∧ (∀ (ds : SketchesDataset) (dir : String) (files : String → Option Image)
        (transform : Option (Image → Image)) (lmap : LabelDict) (idx : Nat)
        (row : StatsRow), ds.stats[idx]? = some row →
        files (dir ++ "/" ++ (row.category.replace " " "_") ++ "/" ++
          (row.imagenetID ++ "-" ++ toString row.sketchID ++ ".png")) = none →
        sketchesGetitem ds dir files transform lmap idx
          = .error (dir ++ "/" ++ (row.category.replace " " "_") ++ "/" ++
              (row.imagenetID ++ "-" ++ toString row.sketchID ++ ".png"))) := by
  refine ⟨?_, ?_, ?_⟩
  · intro e a p c info hinfo
    rw [sketchesInit, hinfo]
  · intro e a p c info inv hinv hcsv
    rw [sketchesInit, hinv, hcsv]
  · intro ds dir files transform lmap idx row hrow hfile
    rw [sketchesGetitem, hrow]
    simp only [hfile]

/-- Witness for C7: missing `invalid-error.txt`, missing `stats.csv`, and a
missing sketch image each propagate their error. -/
theorem error_propagation_correct_witness :
    sketchesInit ⟨none, some []⟩ true false false false
        = .error "invalid-error.txt"
    ∧ sketchesInit ⟨some [], none⟩ true false false false
        = .error "stats.csv"
    ∧ sketchesGetitem ⟨[], [⟨"cat", "n001", 5, 0, 0, 0, 0⟩]⟩ "d"
        (fun _ => none) none [] 0
        = .error ("d" ++ "/" ++ (("cat" : String).replace " " "_") ++ "/" ++
            ("n001" ++ "-" ++ toString (5 : Nat) ++ ".png")) :=
  ⟨error_propagation_correct.1 true false false false ⟨none, some []⟩ rfl,
   error_propagation_correct.2.1 true false false false ⟨some [], none⟩ [] rfl rfl,
   error_propagation_correct.2.2 ⟨[], [⟨"cat", "n001", 5, 0, 0, 0, 0⟩]⟩ "d"
     (fun _ => none) none [] 0 ⟨"cat", "n001", 5, 0, 0, 0, 0⟩ rfl rfl⟩
/-! ### Helper lemmas about the label/id dictionary -/

theorem dictGet_foldl_untouched (qs : List (Nat × String)) (d : LabelDict)
    (k : Key) (h : ∀ il ∈ qs, Sum.inl il.1 ≠ k ∧ Sum.inr il.2 ≠ k) :
    dictGet (qs.foldl labelsStep d) k = dictGet d k := by
  induction qs generalizing d with
  | nil => rfl
  | cons il rest ih =>
    rw [List.foldl_cons,
      ih (labelsStep d il) (fun jl hjl => h jl (List.mem_cons_of_mem il hjl))]
    obtain ⟨h1, h2⟩ := h il (List.mem_cons_self il rest)
    rw [dictGet, labelsStep, dictInsert, dictInsert,
      List.find?_cons_of_neg _ (by simp [h2]),
      List.find?_cons_of_neg _ (by simp [h1])]
    rfl

theorem dictGet_foldl_hit (qs : List (Nat × String)) (d : LabelDict) (i : Nat)
    (l : String) (hmem : (i, l) ∈ qs)
    (hfst : ∀ jl ∈ qs, jl.1 = i → jl.2 = l)
    (hsnd : ∀ jl ∈ qs, jl.2 = l → jl.1 = i) :
    dictGet (qs.foldl labelsStep d) (Sum.inl i) = some (Sum.inr l)
    ∧ dictGet (qs.foldl labelsStep d) (Sum.inr l) = some (Sum.inl i) := by
  induction qs generalizing d with
  | nil => cases hmem
  | cons jl rest ih =>
    rw [List.foldl_cons]
    by_cases hrest : (i, l) ∈ rest
    · exact ih (labelsStep d jl) hrest
        (fun kl hkl hk => hfst kl (List.mem_cons_of_mem jl hkl) hk)
        (fun kl hkl hk => hsnd kl (List.mem_cons_of_mem jl hkl) hk)
    · have hjl : jl = (i, l) := by
        rcases List.mem_cons.mp hmem with h | h
        · exact h.symm
        · exact absurd h hrest
      subst hjl
      have hnofst : ∀ kl ∈ rest,
          Sum.inl kl.1 ≠ (Sum.inl i : Key) ∧ Sum.inr kl.2 ≠ (Sum.inl i : Key) := by
        rintro ⟨a, bb⟩ hkl
        refine ⟨fun hEq => ?_, by simp⟩
        have ha : a = i := by simpa using hEq
        subst ha
        have hb : bb = l := hfst (a, bb) (List.mem_cons_of_mem _ hkl) rfl
        subst hb
        exact hrest hkl
      have hnosnd : ∀ kl ∈ rest,
          Sum.inl kl.1 ≠ (Sum.inr l : Key) ∧ Sum.inr kl.2 ≠ (Sum.inr l : Key) := by
        rintro ⟨a, bb⟩ hkl
        refine ⟨by simp, fun hEq => ?_⟩
        have hb : bb = l := by simpa using hEq
        subst hb
        have ha : a = i := hsnd (a, bb) (List.mem_cons_of_mem _ hkl) rfl
        subst ha
        exact hrest hkl
      refine ⟨?_, ?_⟩
      · rw [dictGet_foldl_untouched rest _ _ hnofst]
        rw [dictGet, labelsStep, dictInsert, dictInsert,
          List.find?_cons_of_neg _ (by simp),
          List.find?_cons_of_pos _ (by simp)]
        rfl
      · rw [dictGet_foldl_untouched rest _ _ hnosnd]
        rw [dictGet, labelsStep, dictInsert, dictInsert,
          List.find?_cons_of_pos _ (by simp)]
        rfl

/-- C10: for a listing of distinct folder names, the dictionary built by
`generate_labels_id_map` is a two-sided inverse between integer ids and
labels (`d[d[label]] = label` and `d[d[i]] = i`), ids are assigned in sorted
order of the labels, and the result depends only on the set of names (any
permutation of the listing yields the same dictionary). -/
theorem generate_labels_id_map_correct (listing : List String)
    (hnd : listing.Nodup) :
    (∀ label ∈ listing, ∃ i,
        dictGet (generate_labels_id_map listing) (Sum.inr label)
            = some (Sum.inl i)
        ∧ dictGet (generate_labels_id_map listing) (Sum.inl i)
            = some (Sum.inr label))
    ∧ (∀ i, i < listing.length → ∃ label,
        dictGet (generate_labels_id_map listing) (Sum.inl i)
            = some (Sum.inr label)
        ∧ dictGet (generate_labels_id_map listing) (Sum.inr label)
            = some (Sum.inl i))
    ∧ (∀ i (h : i < (listing.insertionSort (· ≤ ·)).length),
        dictGet (generate_labels_id_map listing) (Sum.inl i)
          = some (Sum.inr ((listing.insertionSort (· ≤ ·)).get ⟨i, h⟩)))
    ∧ (listing.insertionSort (· ≤ ·)).Sorted (· ≤ ·)
    ∧ (∀ other : List String, other.Perm listing →
        generate_labels_id_map other = generate_labels_id_map listing) := by
  have hperm : (listing.insertionSort (· ≤ ·)).Perm listing :=
    List.perm_insertionSort _ listing
  have hndL : (listing.insertionSort (· ≤ ·)).Nodup := hperm.symm.nodup hnd
  have hlen : (listing.insertionSort (· ≤ ·)).length = listing.length :=
    hperm.length_eq
  have key : ∀ (i : Nat) (hi : i < (listing.insertionSort (· ≤ ·)).length),
      dictGet (generate_labels_id_map listing) (Sum.inl i)
          = some (Sum.inr ((listing.insertionSort (· ≤ ·))[i]))
      ∧ dictGet (generate_labels_id_map listing)
            (Sum.inr ((listing.insertionSort (· ≤ ·))[i]))
          = some (Sum.inl i) := by
    intro i hi
    simp only [generate_labels_id_map]
    have hle : i < (listing.insertionSort (· ≤ ·)).enum.length := by
      rw [List.enum_length]
      exact hi
    have hienum : (i, (listing.insertionSort (· ≤ ·))[i])
        ∈ (listing.insertionSort (· ≤ ·)).enum := by
      have hgt := List.getElem_enum (listing.insertionSort (· ≤ ·)) i hle
      rw [← hgt]
      exact List.getElem_mem hle
    refine dictGet_foldl_hit _ [] i _ hienum ?_ ?_
    · rintro ⟨a, bb⟩ hab hEq
      obtain ⟨ha, hb⟩ := List.mem_enum hab
      simp only at hEq hb ⊢
      subst hEq
      exact hb
    · rintro ⟨a, bb⟩ hab hEq
      obtain ⟨ha, hb⟩ := List.mem_enum hab
      simp only at hEq hb ⊢
      apply (List.Nodup.getElem_inj_iff hndL).mp
      rw [← hb, hEq]
  refine ⟨?_, ?_, ?_, List.sorted_insertionSort _ listing, ?_⟩
  · intro label hlabel
    have hmemL : label ∈ listing.insertionSort (· ≤ ·) :=
      hperm.mem_iff.mpr hlabel
    obtain ⟨i, hi, hEq⟩ := List.mem_iff_getElem.mp hmemL
    refine ⟨i, ?_, ?_⟩
    · rw [← hEq]
      exact (key i hi).2
    · rw [← hEq]
      exact (key i hi).1
  · intro i hi
    have hi' : i < (listing.insertionSort (· ≤ ·)).length := by
      rw [hlen]
      exact hi
    exact ⟨_, (key i hi').1, (key i hi').2⟩
  · intro i h
    rw [List.get_eq_getElem]
    exact (key i h).1
  · intro other hpermo
    have hsorteq : other.insertionSort (· ≤ ·)
        = listing.insertionSort (· ≤ ·) :=
      List.eq_of_perm_of_sorted
        ((List.perm_insertionSort _ other).trans (hpermo.trans hperm.symm))
        (List.sorted_insertionSort _ other)
        (List.sorted_insertionSort _ listing)
    simp only [generate_labels_id_map]
    rw [hsorteq]

/-- Witness for C10 on the concrete distinct listing `["b", "a"]`. -/
theorem generate_labels_id_map_correct_witness :
    (∀ label ∈ ["b", "a"], ∃ i,
        dictGet (generate_labels_id_map ["b", "a"]) (Sum.inr label)
            = some (Sum.inl i)
        ∧ dictGet (generate_labels_id_map ["b", "a"]) (Sum.inl i)
            = some (Sum.inr label))
    ∧ (∀ i, i < (["b", "a"] : List String).length → ∃ label,
        dictGet (generate_labels_id_map ["b", "a"]) (Sum.inl i)
            = some (Sum.inr label)
        ∧ dictGet (generate_labels_id_map ["b", "a"]) (Sum.inr label)
            = some (Sum.inl i))
    ∧ (∀ i (h : i < ((["b", "a"] : List String).insertionSort (· ≤ ·)).length),
        dictGet (generate_labels_id_map ["b", "a"]) (Sum.inl i)
          = some (Sum.inr (((["b", "a"] : List String).insertionSort (· ≤ ·)).get ⟨i, h⟩)))
    ∧ ((["b", "a"] : List String).insertionSort (· ≤ ·)).Sorted (· ≤ ·)
    ∧ (∀ other : List String, other.Perm ["b", "a"] →
        generate_labels_id_map other = generate_labels_id_map ["b", "a"]) :=
  generate_labels_id_map_correct ["b", "a"] (by decide)

end Sketch2img
